import Mathlib

/-!
Verification development for the Hemingway adposition-stylometry pipeline
(scripts/extract_prepositions.py, scripts/analyze_frequency.py,
scripts/compare_authors.py).

Numbers are modelled with exact rationals (the scripts compute with
IEEE doubles; the algebraic structure of the pipeline, which is what the
specification describes, is the same).  Python's two-decimal `round` is
modelled as round-half-to-even on rationals.  Pandas element-wise float
results that can be NaN or infinity are modelled with `Option` or the
`PVal` type below.
-/

/-! ## Rational helpers -/

/-- Floor of a rational, computed from its normalized numerator and
denominator (`Int.fdiv` is floor division). -/
def qfloor (q : ℚ) : ℤ := q.num.fdiv q.den

/-- Round-half-to-even to the nearest integer, the tie-breaking rule of
Python's builtin `round`. -/
def roundHalfEven (q : ℚ) : ℤ :=
  let f : ℤ := qfloor q
  let r : ℚ := q - (f : ℚ)
  if r < 1/2 then f
  else if 1/2 < r then f + 1
  else if f % 2 = 0 then f else f + 1

/-- Model of Python's `round(x, 2)`: round to two decimal places. -/
def round2 (q : ℚ) : ℚ := ((roundHalfEven (q * 100) : ℤ) : ℚ) / 100

/-- Mean of a list of rationals as pandas `.mean()` computes it on a
non-empty series (sum divided by length).  The builders below only apply
it to non-empty author groups; on `[]` it returns the junk value `0`,
which no reachable code path observes. -/
def meanQ (l : List ℚ) : ℚ := l.sum / (l.length : ℚ)

/-- Pandas `.mean()` with its NaN-on-empty behaviour made explicit:
`none` models NaN (the mean of an empty series). -/
def pandasMean (l : List ℚ) : Option ℚ :=
  if l.isEmpty then none else some (meanQ l)

/-- Minimum of a list as pandas `.min()` on a non-empty series. -/
def minQ (l : List ℚ) : ℚ :=
  match l with
  | [] => 0
  | h :: t => t.foldl min h

/-- Maximum of a list as pandas `.max()` on a non-empty series. -/
def maxQ (l : List ℚ) : ℚ :=
  match l with
  | [] => 0
  | h :: t => t.foldl max h

/-! ## extract_prepositions.py -/

/-- TARGET_ADPOSITIONS: the six directional adpositions under study. -/
def targetAdpositions : List String :=
  ["across", "through", "along", "past", "around", "beyond"]

/-- count_adpositions: `Counter(tokens)` followed by `counter.get(adp, 0)`
for each target adposition — the number of exact-string occurrences of a
token in the token list.  The Python dict is keyed by the target list; it
is modelled as a function queried at target adpositions. -/
def countAdpositions (tokens : List String) : String → ℕ :=
  fun adp => tokens.count adp

/-- normalize_frequency: per-`per_n_words` rates, with the zero-total
branch returning 0 for every adposition (the call site uses
`per_n_words = 10000`). -/
def normalizeFrequency (counts : String → ℕ) (total : ℕ) : String → ℚ :=
  if total = 0 then fun _ => 0
  else fun adp => ((counts adp : ℚ) / (total : ℚ)) * 10000

/-- One row of the raw dataset (`adpositions_raw_data.csv`): the
`{adp}_count` columns are `count`, the `{adp}_per_10k` columns are
`rate` (stored already rounded to two decimals, as the script writes
them). -/
structure WorkRow where
  author : String
  work : String
  total_words : ℕ
  count : String → ℕ
  rate : String → ℚ

/-- process_corpus_file, from the token list onward (reading and
tokenizing the file precede this point): total_words is the token count,
counts are exact-match counts, and the stored `{adp}_per_10k` column is
the normalized frequency rounded to two decimals. -/
def processCorpusFile (tokens : List String) (author work : String) : WorkRow :=
  let total := tokens.length
  let counts := countAdpositions tokens
  let rates := normalizeFrequency counts total
  { author := author
    work := work
    total_words := total
    count := counts
    rate := fun adp => round2 (rates adp) }

/-- Substring test on character lists, modelling Python's
`pat in s` for strings. -/
def containsSub (pat : List Char) : List Char → Bool
  | [] => pat.isEmpty
  | c :: rest => pat.isPrefixOf (c :: rest) || containsSub pat rest

/-- Python's `pat in s` on strings. -/
def strContains (pat s : String) : Bool := containsSub pat.toList s.toList

/-- get_author_from_filename's `author_mapping` dict, in insertion
order (Python dicts iterate in insertion order). -/
def authorMapping : List (String × String) :=
  [("Winesburg, Ohio", "Sherwood Anderson"),
   ("The Great Gatsby", "F. Scott Fitzgerald"),
   ("Manhattan Transfer", "John Dos Passos"),
   ("As I Lay Dying", "William Faulkner"),
   ("1919", "John Dos Passos"),
   ("Of Mice and Men", "John Steinbeck")]

/-- get_author_from_filename: scan the mapping in order, return the
author of the first work title that occurs as a substring of the
filename, else the fallback value. -/
def getAuthorFromFilename (filename : String) : String :=
  match authorMapping.find? (fun p => strContains p.1 filename) with
  | some p => p.2
  | none => "Unknown Author"

/-! ## analyze_frequency.py -/

/-- Pandas `.std()` (sample standard deviation) involves a square root,
which has no exact rational value; the two call sites below invoke the
same library routine, so it is modelled as an explicit function
parameter shared by both embeddings (every IEEE double it can return is
a rational, NaN being `none`). -/
abbrev StdFn := List ℚ → Option ℚ

/-- Order-preserving deduplication, the behaviour of pandas
`df[col].unique()` (first occurrence wins). -/
def dedupFirst (l : List String) : List String :=
  l.foldl (fun acc a => if a ∈ acc then acc else acc ++ [a]) []

/-- The author iteration `df[author].unique()` used by both the Author
Aggregator and the Frequency Summary Builder. -/
def uniqueAuthors (df : List WorkRow) : List String :=
  dedupFirst (df.map (·.author))

/-- The row group `df[df[author] == author]`. -/
def groupOf (df : List WorkRow) (author : String) : List WorkRow :=
  df.filter (fun r => r.author == author)

/-- The `{adp}_per_10k` column of a group of rows. -/
def ratesOf (g : List WorkRow) (adp : String) : List ℚ :=
  g.map (fun r => r.rate adp)

/-- One row of `author_statistics.csv`.  The per-adposition dict columns
(`{adp}_total_count`, `{adp}_avg_per_10k`, `{adp}_std_per_10k`), which
the script creates for each adposition of the target list, are modelled
as functions queried at target adpositions. -/
structure AuthorStats where
  author : String
  num_works : ℕ
  total_words : ℕ
  avg_words_per_work : ℚ
  total_count : String → ℕ
  avg_per_10k : String → ℚ
  std_per_10k : String → Option ℚ

/-- The author-statistics row built for one author by
calculate_author_statistics. -/
def mkAuthorStats (std : StdFn) (df : List WorkRow) (author : String) : AuthorStats :=
  let g := groupOf df author
  { author := author
    num_works := g.length
    total_words := (g.map (·.total_words)).sum
    avg_words_per_work := meanQ (g.map (fun r => (r.total_words : ℚ)))
    total_count := fun adp => (g.map (fun r => r.count adp)).sum
    avg_per_10k := fun adp => round2 (meanQ (ratesOf g adp))
    std_per_10k := fun adp => (std (ratesOf g adp)).map round2 }

/-- calculate_author_statistics: one AuthorStats row per unique author,
in order of first appearance. -/
def calculateAuthorStatistics (std : StdFn) (df : List WorkRow) : List AuthorStats :=
  (uniqueAuthors df).map (mkAuthorStats std df)

/-- One row of `frequency_summary.csv`. -/
structure SummaryRow where
  author : String
  adposition : String
  mean_frequency : ℚ
  std_frequency : Option ℚ
  min_frequency : ℚ
  max_frequency : ℚ
deriving DecidableEq

/-- The summary row built for one (author, adposition) pair by
create_frequency_summary. -/
def mkSummaryRow (std : StdFn) (df : List WorkRow) (author adp : String) : SummaryRow :=
  let l := ratesOf (groupOf df author) adp
  { author := author
    adposition := adp
    mean_frequency := round2 (meanQ l)
    std_frequency := (std l).map round2
    min_frequency := round2 (minQ l)
    max_frequency := round2 (maxQ l) }

/-- create_frequency_summary: for each unique author and each target
adposition, one long-form row. -/
def createFrequencySummary (std : StdFn) (df : List WorkRow) : List SummaryRow :=
  (uniqueAuthors df).flatMap (fun author => targetAdpositions.map (mkSummaryRow std df author))

/-- The summary row for one (author, adposition) pair. -/
def summaryLookup (std : StdFn) (df : List WorkRow) (author adp : String) : Option SummaryRow :=
  (createFrequencySummary std df).find? (fun r => r.author == author && r.adposition == adp)

/-- The statistics row for one author. -/
def statsLookup (std : StdFn) (df : List WorkRow) (author : String) : Option AuthorStats :=
  (calculateAuthorStatistics std df).find? (fun r => r.author == author)

/-- A pandas float cell that can be a number, positive infinity or NaN
(the results of element-wise division by zero). -/
inductive PVal where
  | num : ℚ → PVal
  | inf : PVal
  | nan : PVal
deriving DecidableEq

/-- Element-wise pandas division of two non-negative integer columns:
division by zero yields NaN for 0/0 and +infinity for x/0 with x > 0,
never an exception. -/
def pdivNat (a b : ℕ) : PVal :=
  if b = 0 then (if a = 0 then PVal.nan else PVal.inf)
  else PVal.num ((a : ℚ) / (b : ℚ))

/-- Multiplication of a pandas float by the positive constant 10000. -/
def pscale10000 : PVal → PVal
  | PVal.num q => PVal.num (q * 10000)
  | PVal.inf => PVal.inf
  | PVal.nan => PVal.nan

/-- One row of `adpositions_enriched_data.csv`. -/
structure EnrichedRow extends WorkRow where
  total_adpositions_count : ℕ
  total_adpositions_per_10k : PVal

/-- The enrichment of one row by calculate_total_adpositions:
`total_adpositions_count` sums the `{adp}_count` columns and
`total_adpositions_per_10k` is `count / total_words * 10000` computed
element-wise by pandas, with no guard for `total_words == 0`. -/
def enrichRow (r : WorkRow) : EnrichedRow :=
  let tc := (targetAdpositions.map r.count).sum
  { toWorkRow := r
    total_adpositions_count := tc
    total_adpositions_per_10k := pscale10000 (pdivNat tc r.total_words) }

/-- calculate_total_adpositions over the whole raw dataset. -/
def calculateTotalAdpositions (df : List WorkRow) : List EnrichedRow :=
  df.map enrichRow

/-! ## compare_authors.py -/

/-- The comparison matrix produced by pivoting the frequency summary:
row labels, column labels, and the cell content (a missing
(author, adposition) combination is NaN, modelled as `none`). -/
structure CompMatrix where
  authors : List String
  adps : List String
  cell : String → String → Option ℚ

/-- The pivot key of a summary row. -/
def summaryKey (r : SummaryRow) : String × String := (r.author, r.adposition)

/-- create_comparison_matrix: `DataFrame.pivot` raises ValueError when
two rows share the same (index, columns) pair, otherwise produces the
author × adposition grid of `mean_frequency` values. -/
def createComparisonMatrix (rows : List SummaryRow) : Except String CompMatrix :=
  if (rows.map summaryKey).Nodup then
    Except.ok
      { authors := dedupFirst (rows.map (·.author))
        adps := dedupFirst (rows.map (·.adposition))
        cell := fun a adp =>
          (rows.find? (fun r => r.author == a && r.adposition == adp)).map (·.mean_frequency) }
  else Except.error "Index contains duplicate entries, cannot reshape"

/-- The leave-one-out column mean
`comparison_matrix.loc[other_authors, adposition].mean()`: mean over
the other authors' cells, skipping NaN cells (pandas skipna), NaN when
no value remains. -/
def othersMean (m : CompMatrix) (author adp : String) : Option ℚ :=
  pandasMean ((m.authors.filter (fun a => a != author)).filterMap (fun a => m.cell a adp))

/-- One row of `distinctive_features.csv`. -/
structure Feature where
  author : String
  adposition : String
  author_frequency : ℚ
  others_mean_frequency : ℚ
  ratio : ℚ
  distinctive_level : String
deriving DecidableEq

/-- The emitted record of identify_distinctive_features: numeric display
fields are rounded to two decimals, while the level is decided on the
unrounded ratio. -/
def mkFeature (author adp : String) (authorFreq othersMeanFreq : ℚ) : Feature :=
  { author := author
    adposition := adp
    author_frequency := round2 authorFreq
    others_mean_frequency := round2 othersMeanFreq
    ratio := round2 (authorFreq / othersMeanFreq)
    distinctive_level := if 2 ≤ authorFreq / othersMeanFreq then "high" else "moderate" }

/-- The body of the double loop of identify_distinctive_features for one
(author, adposition) cell: skip when the leave-one-out mean is NaN or
not positive, skip when the cell is NaN (a NaN ratio fails the
threshold test), emit one record when `ratio >= threshold`. -/
def cellFeatures (m : CompMatrix) (threshold : ℚ) (author adp : String) : List Feature :=
  match othersMean m author adp with
  | none => []
  | some om =>
    if 0 < om then
      match m.cell author adp with
      | some af => if threshold ≤ af / om then [mkFeature author adp af om] else []
      | none => []
    else []

/-- identify_distinctive_features: the double loop over row and column
labels. -/
def identifyDistinctiveFeatures (m : CompMatrix) (threshold : ℚ) : List Feature :=
  m.authors.flatMap (fun a => m.adps.flatMap (cellFeatures m threshold a))

/-- The default `threshold=1.5` of identify_distinctive_features. -/
def defaultThreshold : ℚ := 3/2

/-- Variant of `mkFeature` with the two-decimal display rounding
removed, used to state that rounding inside the detector touches only
display fields. -/
def mkFeatureRaw (author adp : String) (authorFreq othersMeanFreq : ℚ) : Feature :=
  { author := author
    adposition := adp
    author_frequency := authorFreq
    others_mean_frequency := othersMeanFreq
    ratio := authorFreq / othersMeanFreq
    distinctive_level := if 2 ≤ authorFreq / othersMeanFreq then "high" else "moderate" }

/-- `cellFeatures` with display rounding removed. -/
def cellFeaturesRaw (m : CompMatrix) (threshold : ℚ) (author adp : String) : List Feature :=
  match othersMean m author adp with
  | none => []
  | some om =>
    if 0 < om then
      match m.cell author adp with
      | some af => if threshold ≤ af / om then [mkFeatureRaw author adp af om] else []
      | none => []
    else []

/-- `identifyDistinctiveFeatures` with display rounding removed. -/
def identifyDistinctiveFeaturesRaw (m : CompMatrix) (threshold : ℚ) : List Feature :=
  m.authors.flatMap (fun a => m.adps.flatMap (cellFeaturesRaw m threshold a))

/-- Rounding of a pandas float to two decimals: `round` maps infinity
and NaN to themselves. -/
def pvRound2 : PVal → PVal
  | PVal.num q => PVal.num (round2 q)
  | PVal.inf => PVal.inf
  | PVal.nan => PVal.nan

/-- A matrix cell as a pandas float. -/
def pOfOpt : Option ℚ → PVal
  | some q => PVal.num q
  | none => PVal.nan

/-- The `diff = auth_freq - hem_freq` line of compare_to_hemingway:
subtraction propagates NaN. -/
def psub (auth hem : Option ℚ) : PVal :=
  match auth, hem with
  | some a, some h => PVal.num (a - h)
  | _, _ => PVal.nan

/-- The `ratio = auth_freq / hem_freq if hem_freq > 0 else np.inf` line
of compare_to_hemingway: a NaN baseline fails the `> 0` test and also
lands on the infinity branch; a NaN author rate over a positive
baseline is NaN. -/
def pratio (auth hem : Option ℚ) : PVal :=
  match hem with
  | some hv =>
    if 0 < hv then
      match auth with
      | some av => PVal.num (av / hv)
      | none => PVal.nan
    else PVal.inf
  | none => PVal.inf

/-- One row of `hemingway_comparison.csv`. -/
structure CompEntry where
  author : String
  adposition : String
  hemingway_freq : PVal
  author_freq : PVal
  difference : PVal
  ratio : PVal
deriving DecidableEq

/-- The record appended by compare_to_hemingway for one
(author, adposition) pair; all numeric fields are stored rounded to two
decimals. -/
def mkCompEntry (author adp : String) (hem auth : Option ℚ) : CompEntry :=
  { author := author
    adposition := adp
    hemingway_freq := pvRound2 (pOfOpt hem)
    author_freq := pvRound2 (pOfOpt auth)
    difference := pvRound2 (psub auth hem)
    ratio := pvRound2 (pratio auth hem) }

/-- compare_to_hemingway: returns None when the hardcoded label
"hemingway" is not a row of the matrix; otherwise one entry per
(non-hemingway author, adposition) pair. -/
def compareToHemingway (m : CompMatrix) : Option (List CompEntry) :=
  if m.authors.contains "hemingway" then
    some ((m.authors.filter (fun a => a != "hemingway")).flatMap (fun author =>
      m.adps.map (fun adp => mkCompEntry author adp (m.cell "hemingway" adp) (m.cell author adp))))
  else none

/-! ## End-to-end pipelines for the rounding-placement analysis -/

/-- The exact (unrounded) per-10k rate of a raw-dataset row, recomputed
from its count and word-count columns as normalize_frequency computes it
before the two-decimal rounding is applied. -/
def exactRate (r : WorkRow) (adp : String) : ℚ :=
  if r.total_words = 0 then 0
  else ((r.count adp : ℚ) / (r.total_words : ℚ)) * 10000

/-- Modelled from the spec: a frequency-summary row computed from
unrounded per-work rates, as section 6 of the specification demands for
values feeding internal comparisons ("internal comparisons ... must use
unrounded values").  It differs from `mkSummaryRow` only in using
`exactRate` and omitting display rounding. -/
def unroundedSummaryRow (df : List WorkRow) (author adp : String) : SummaryRow :=
  let l := (groupOf df author).map (fun r => exactRate r adp)
  { author := author
    adposition := adp
    mean_frequency := meanQ l
    std_frequency := none
    min_frequency := minQ l
    max_frequency := maxQ l }

/-- Modelled from the spec: the frequency summary over unrounded rates. -/
def unroundedSummary (df : List WorkRow) : List SummaryRow :=
  (uniqueAuthors df).flatMap (fun author => targetAdpositions.map (unroundedSummaryRow df author))

/-- The code's pipeline from the raw dataset to the distinctive
features, with the default threshold, exactly as the scripts chain the
stages (summary rows carry two-decimal rounded means into the pivot). -/
def codeFeatures (std : StdFn) (df : List WorkRow) : List Feature :=
  match createComparisonMatrix (createFrequencySummary std df) with
  | Except.ok m => identifyDistinctiveFeatures m defaultThreshold
  | Except.error _ => []

/-- The same pipeline over the spec-demanded unrounded values. -/
def unroundedFeatures (df : List WorkRow) : List Feature :=
  match createComparisonMatrix (unroundedSummary df) with
  | Except.ok m => identifyDistinctiveFeatures m defaultThreshold
  | Except.error _ => []

/-- The (author, adposition, distinctive_level) projection of an emitted
feature: the part of the detector's output that carries its decision. -/
def featureKeyLevel (f : Feature) : String × String × String :=
  (f.author, f.adposition, f.distinctive_level)

/-! ## Concrete instances used to exercise the theorems -/

/-- A realizable zero-word work record: processing an empty token list. -/
def zeroRow : WorkRow := processCorpusFile [] "alpha" "empty-work"

/-- A small four-token work with two occurrences of "across". -/
def posRow : WorkRow := processCorpusFile ["across", "and", "across", "again"] "alpha" "short-work"

/-- A two-record raw dataset containing a zero-word work. -/
def df6 : List WorkRow := [zeroRow, posRow]

/-- An arbitrary stand-in for the pandas `.std()` routine. -/
def std0 : StdFn := fun _ => none

/-- A raw-dataset row whose exact "across" rate is 10000/20002 = 0.49995
per 10k, stored rounded to 0.50. -/
def rowA7 : WorkRow :=
  { author := "A"
    work := "wa"
    total_words := 20002
    count := fun adp => if adp == "across" then 1 else 0
    rate := fun adp => if adp == "across" then 1/2 else 0 }

/-- A raw-dataset row whose exact "across" rate is 1/3 per 10k, stored
rounded to 0.33. -/
def rowB7 : WorkRow :=
  { author := "B"
    work := "wb"
    total_words := 30000
    count := fun adp => if adp == "across" then 1 else 0
    rate := fun adp => if adp == "across" then 33/100 else 0 }

/-- The two-author dataset on which two-decimal artifact rounding flips
the distinctive-feature decision. -/
def df7 : List WorkRow := [rowA7, rowB7]

/-- A raw dataset with one author owning two works. -/
def df3 : List WorkRow :=
  [processCorpusFile ["across", "it"] "alpha" "w1",
   processCorpusFile ["beyond", "all", "of", "it"] "alpha" "w2"]

/-- A comparison matrix with no "hemingway" row. -/
def m0 : CompMatrix :=
  { authors := ["alpha", "beta"], adps := ["across"], cell := fun _ _ => some 1 }

/-- A comparison matrix containing the "hemingway" row. -/
def m1 : CompMatrix :=
  { authors := ["hemingway", "alpha"]
    adps := ["across"]
    cell := fun a _ => if a == "hemingway" then some 1 else some 2 }

/-- A two-author, one-column matrix on which author "A" is distinctive. -/
def m4 : CompMatrix :=
  { authors := ["A", "B"]
    adps := ["across"]
    cell := fun a adp =>
      if a == "A" && adp == "across" then some 3
      else if a == "B" && adp == "across" then some 1 else none }

/-- A matrix with the baseline row, one positive and one zero baseline
cell (all cells two-decimal values). -/
def m5 : CompMatrix :=
  { authors := ["hemingway", "A"]
    adps := ["across", "past"]
    cell := fun a adp =>
      if adp == "across" then (if a == "hemingway" then some (1/2) else some 2)
      else (if a == "hemingway" then some 0 else some 3) }

/-- The code's frequency summary over `df7`. -/
def summary7 : List SummaryRow := createFrequencySummary std0 df7

/-- The comparison matrix the pivot produces from `summary7`. -/
def matrix7 : CompMatrix :=
  { authors := dedupFirst (summary7.map (·.author))
    adps := dedupFirst (summary7.map (·.adposition))
    cell := fun a adp =>
      (summary7.find? (fun r => r.author == a && r.adposition == adp)).map (·.mean_frequency) }

/-- The spec-demanded unrounded summary over `df7`. -/
def usummary7 : List SummaryRow := unroundedSummary df7

/-- The comparison matrix over the unrounded summary of `df7`. -/
def umatrix7 : CompMatrix :=
  { authors := dedupFirst (usummary7.map (·.author))
    adps := dedupFirst (usummary7.map (·.adposition))
    cell := fun a adp =>
      (usummary7.find? (fun r => r.author == a && r.adposition == adp)).map (·.mean_frequency) }

/-- A summary row for pivoting tests. -/
def srow (author adp : String) (mean : ℚ) : SummaryRow :=
  { author := author, adposition := adp, mean_frequency := mean
    std_frequency := none, min_frequency := mean, max_frequency := mean }

/-- Two summary rows with distinct pivot keys. -/
def rows9 : List SummaryRow := [srow "alpha" "across" 1, srow "beta" "across" 2]

/-- Two summary rows sharing one pivot key. -/
def rows9dup : List SummaryRow := [srow "alpha" "across" 1, srow "alpha" "across" 2]

/-! ## Basic facts about rounding -/

theorem qfloor_intCast (k : ℤ) : qfloor (k : ℚ) = k := by
  simp [qfloor, Rat.num_intCast, Rat.den_intCast]

theorem roundHalfEven_intCast (k : ℤ) : roundHalfEven (k : ℚ) = k := by
  unfold roundHalfEven
  simp [qfloor_intCast]

theorem round2_centi (k : ℤ) : round2 ((k : ℚ) / 100) = (k : ℚ) / 100 := by
  unfold round2
  have h : ((k : ℚ) / 100) * 100 = (k : ℚ) := by
    field_simp
  rw [h, roundHalfEven_intCast]

theorem round2_zero : round2 0 = 0 := by
  have h := round2_centi 0
  simpa using h

/-! ## C1: per-work rate normalization -/

/-- Claim C1: for every WorkRecord built from a document, the stored
per-adposition rate is the two-decimal rounding of
`(counts[a] / total_words) * 10000` when `total_words > 0`, and is `0`
when `total_words == 0`; the zero branch of normalize_frequency means no
division by zero is ever performed. -/
theorem c1_work_rate_normalization (tokens : List String) (author work adp : String)
    (_hadp : adp ∈ targetAdpositions) :
    (0 < (processCorpusFile tokens author work).total_words →
      (processCorpusFile tokens author work).rate adp =
        round2 ((((processCorpusFile tokens author work).count adp : ℚ) /
          ((processCorpusFile tokens author work).total_words : ℚ)) * 10000)) ∧
    ((processCorpusFile tokens author work).total_words = 0 →
      (processCorpusFile tokens author work).rate adp = 0) := by
  constructor
  · intro hpos
    have h0 : tokens.length ≠ 0 := by
      simp only [processCorpusFile] at hpos
      omega
    simp [processCorpusFile, normalizeFrequency, h0]
  · intro hz
    have h0 : tokens.length = 0 := by
      simpa [processCorpusFile] using hz
    simp [processCorpusFile, normalizeFrequency, h0, round2_zero]

/-- Witness for C1 at a concrete three-token document. -/
theorem c1_work_rate_normalization_witness :
    0 < (processCorpusFile ["across", "the", "river"] "hemingway" "w").total_words ∧
    (processCorpusFile ["across", "the", "river"] "hemingway" "w").rate "across" =
      round2 ((((processCorpusFile ["across", "the", "river"] "hemingway" "w").count "across" : ℚ) /
        ((processCorpusFile ["across", "the", "river"] "hemingway" "w").total_words : ℚ)) * 10000) :=
  ⟨by decide,
   (c1_work_rate_normalization ["across", "the", "river"] "hemingway" "w" "across"
     (by decide)).1 (by decide)⟩

/-! ## C10: filename-to-author mapping -/

/-- Claim C10: the author of a "comparables" document is decided by
substring match of the known work titles against the filename, in the
listed order with the first match winning, and the fallback author
"Unknown Author" is assigned when no pattern matches. -/
theorem c10_filename_author_mapping (filename : String) :
    ((∀ p ∈ authorMapping, strContains p.1 filename = false) →
      getAuthorFromFilename filename = "Unknown Author") ∧
    (∀ (l₁ : List (String × String)) (p : String × String) (l₂ : List (String × String)),
      authorMapping = l₁ ++ p :: l₂ →
      (∀ q ∈ l₁, strContains q.1 filename = false) →
      strContains p.1 filename = true →
      getAuthorFromFilename filename = p.2) := by
  constructor
  · intro hnone
    have hfind : authorMapping.find? (fun p => strContains p.1 filename) = none := by
      rw [List.find?_eq_none]
      intro x hx
      simp [hnone x hx]
    simp [getAuthorFromFilename, hfind]
  · intro l₁ p l₂ hsplit hbefore hp
    have hfind₁ : l₁.find? (fun q => strContains q.1 filename) = none := by
      rw [List.find?_eq_none]
      intro x hx
      simp [hbefore x hx]
    have hcons : (p :: l₂).find? (fun q => strContains q.1 filename) = some p :=
      List.find?_cons_of_pos l₂ hp
    have hfind : authorMapping.find? (fun q => strContains q.1 filename) = some p := by
      rw [hsplit, List.find?_append, hfind₁, Option.none_or, hcons]
    simp [getAuthorFromFilename, hfind]

/-- Witness for C10: a filename matching both the fourth and the fifth
pattern resolves to the fourth pattern's author (first match wins), and
an unmatched filename falls back to "Unknown Author". -/
theorem c10_filename_author_mapping_witness :
    getAuthorFromFilename "As I Lay Dying 1919" = "William Faulkner" ∧
    getAuthorFromFilename "Moby-Dick" = "Unknown Author" := by
  constructor
  · exact (c10_filename_author_mapping "As I Lay Dying 1919").2
      [("Winesburg, Ohio", "Sherwood Anderson"),
       ("The Great Gatsby", "F. Scott Fitzgerald"),
       ("Manhattan Transfer", "John Dos Passos")]
      ("As I Lay Dying", "William Faulkner")
      [("1919", "John Dos Passos"), ("Of Mice and Men", "John Steinbeck")]
      (by decide) (by decide) (by decide)
  · exact (c10_filename_author_mapping "Moby-Dick").1 (by decide)

/-! ## C6: totals enrichment -/

/-- Counterexample to claim C6: for a realizable zero-word work record
the enriched total rate is NaN (pandas 0/0), not 0 as the claim states. -/
theorem c6_total_rate_counterexample :
    (calculateTotalAdpositions [zeroRow]).map (·.total_adpositions_per_10k) = [PVal.nan] ∧
    PVal.nan ≠ PVal.num 0 := by
  constructor
  · decide
  · decide

/-- Claim C6 as amended: `total_adpositions_count` is the sum of the
per-adposition counts, and `total_adpositions_per_10k` equals
`(total_count / total_words) * 10000` when `total_words > 0`; when
`total_words == 0` the unguarded pandas division yields NaN (for a zero
total count) or +infinity (for a positive one), never the value 0. -/
theorem c6_total_enrichment_amended (df : List WorkRow) (e : EnrichedRow)
    (he : e ∈ calculateTotalAdpositions df) :
    e.total_adpositions_count = (targetAdpositions.map e.count).sum ∧
    (0 < e.total_words →
      e.total_adpositions_per_10k =
        PVal.num (((e.total_adpositions_count : ℚ) / (e.total_words : ℚ)) * 10000)) ∧
    (e.total_words = 0 →
      e.total_adpositions_per_10k =
        (if e.total_adpositions_count = 0 then PVal.nan else PVal.inf)) := by
  obtain ⟨r, _, rfl⟩ := List.mem_map.mp he
  refine ⟨rfl, ?_, ?_⟩
  · intro hpos
    have h0 : r.total_words ≠ 0 := by
      simp only [enrichRow] at hpos
      omega
    simp [enrichRow, pdivNat, pscale10000, h0]
  · intro hz
    have h0 : r.total_words = 0 := by
      simpa [enrichRow] using hz
    by_cases htc : (targetAdpositions.map r.count).sum = 0 <;>
      simp [enrichRow, pdivNat, pscale10000, h0, htc]

/-- Witness for the amended C6 on a two-record dataset. -/
theorem c6_total_enrichment_amended_witness :
    (enrichRow posRow).total_adpositions_count =
      (targetAdpositions.map (enrichRow posRow).count).sum ∧
    (0 < (enrichRow posRow).total_words →
      (enrichRow posRow).total_adpositions_per_10k =
        PVal.num ((((enrichRow posRow).total_adpositions_count : ℚ) /
          ((enrichRow posRow).total_words : ℚ)) * 10000)) ∧
    ((enrichRow posRow).total_words = 0 →
      (enrichRow posRow).total_adpositions_per_10k =
        (if (enrichRow posRow).total_adpositions_count = 0 then PVal.nan else PVal.inf)) :=
  c6_total_enrichment_amended df6 (enrichRow posRow)
    (List.mem_map_of_mem enrichRow (List.mem_cons_of_mem zeroRow (List.mem_cons_self posRow [])))

/-! ## C8: hardcoded baseline -/

/-- Counterexample to claim C8: the comparator does not accept an
arbitrary present row as baseline — on a matrix whose rows are "alpha"
and "beta" (with "alpha" designated), it returns None and produces no
entries at all, because the baseline name "hemingway" is hardcoded. -/
theorem c8_hardcoded_baseline_counterexample :
    "alpha" ∈ m0.authors ∧ compareToHemingway m0 = none := by
  constructor
  · decide
  · decide

/-! ## Helper lemmas shared by the aggregation claims -/

theorem mkSummaryRow_author (std : StdFn) (df : List WorkRow) (a adp : String) :
    (mkSummaryRow std df a adp).author = a := rfl

theorem mkSummaryRow_adposition (std : StdFn) (df : List WorkRow) (a adp : String) :
    (mkSummaryRow std df a adp).adposition = adp := rfl

theorem mkAuthorStats_author (std : StdFn) (df : List WorkRow) (a : String) :
    (mkAuthorStats std df a).author = a := rfl

theorem mem_createFrequencySummary (std : StdFn) (df : List WorkRow) {author adp : String}
    (ha : author ∈ uniqueAuthors df) (hadp : adp ∈ targetAdpositions) :
    mkSummaryRow std df author adp ∈ createFrequencySummary std df :=
  List.mem_flatMap.mpr ⟨author, ha, List.mem_map_of_mem _ hadp⟩

theorem createFrequencySummary_shape (std : StdFn) (df : List WorkRow) {x : SummaryRow}
    (hx : x ∈ createFrequencySummary std df) :
    ∃ au ∈ uniqueAuthors df, ∃ adp ∈ targetAdpositions, x = mkSummaryRow std df au adp := by
  obtain ⟨au, hau, hx⟩ := List.mem_flatMap.mp hx
  obtain ⟨adp, hadp, rfl⟩ := List.mem_map.mp hx
  exact ⟨au, hau, adp, hadp, rfl⟩

theorem summaryLookup_eq (std : StdFn) (df : List WorkRow) {author adp : String}
    (ha : author ∈ uniqueAuthors df) (hadp : adp ∈ targetAdpositions) :
    summaryLookup std df author adp = some (mkSummaryRow std df author adp) := by
  have hmem := mem_createFrequencySummary std df ha hadp
  have hps : ((mkSummaryRow std df author adp).author == author &&
      (mkSummaryRow std df author adp).adposition == adp) = true := by
    simp [mkSummaryRow_author, mkSummaryRow_adposition]
  have hsome : ((createFrequencySummary std df).find?
      (fun r => r.author == author && r.adposition == adp)).isSome :=
    List.find?_isSome.mpr ⟨_, hmem, hps⟩
  obtain ⟨x, hx⟩ := Option.isSome_iff_exists.mp hsome
  have hpx := List.find?_some hx
  have hxmem := List.mem_of_find?_eq_some hx
  obtain ⟨au, _, adp', _, rfl⟩ := createFrequencySummary_shape std df hxmem
  rw [mkSummaryRow_author, mkSummaryRow_adposition, Bool.and_eq_true, beq_iff_eq,
    beq_iff_eq] at hpx
  obtain ⟨rfl, rfl⟩ := hpx
  exact hx

theorem statsLookup_eq (std : StdFn) (df : List WorkRow) {author : String}
    (ha : author ∈ uniqueAuthors df) :
    statsLookup std df author = some (mkAuthorStats std df author) := by
  have hmem : mkAuthorStats std df author ∈ calculateAuthorStatistics std df :=
    List.mem_map_of_mem _ ha
  have hps : ((mkAuthorStats std df author).author == author) = true := by
    simp [mkAuthorStats_author]
  have hsome : ((calculateAuthorStatistics std df).find? (fun r => r.author == author)).isSome :=
    List.find?_isSome.mpr ⟨_, hmem, hps⟩
  obtain ⟨x, hx⟩ := Option.isSome_iff_exists.mp hsome
  have hpx := List.find?_some hx
  have hxmem := List.mem_of_find?_eq_some hx
  obtain ⟨au, _, rfl⟩ := List.mem_map.mp hxmem
  rw [mkAuthorStats_author, beq_iff_eq] at hpx
  subst hpx
  exact hx

/-! ## C3: the two aggregate projections agree -/

/-- Claim C3: for every raw dataset, every author of it and every target
adposition, the frequency summary's `mean_frequency` and `std_frequency`
equal the author statistics' `{adp}_avg_per_10k` and `{adp}_std_per_10k`
for the same (author, adposition) pair: both components compute the
two-decimal rounding of the same group statistic over the same rate
column, for any behaviour of the shared `.std()` routine. -/
theorem c3_summary_matches_author_statistics (std : StdFn) (df : List WorkRow)
    (author adp : String)
    (ha : author ∈ uniqueAuthors df) (hadp : adp ∈ targetAdpositions) :
    ∃ s a, summaryLookup std df author adp = some s ∧ statsLookup std df author = some a ∧
      s.mean_frequency = a.avg_per_10k adp ∧ s.std_frequency = a.std_per_10k adp :=
  ⟨_, _, summaryLookup_eq std df ha hadp, statsLookup_eq std df ha, rfl, rfl⟩

/-- Witness for C3 on a concrete two-work dataset. -/
theorem c3_summary_matches_author_statistics_witness :
    ∃ s a, summaryLookup std0 df3 "alpha" "across" = some s ∧
      statsLookup std0 df3 "alpha" = some a ∧
      s.mean_frequency = a.avg_per_10k "across" ∧ s.std_frequency = a.std_per_10k "across" :=
  c3_summary_matches_author_statistics std0 df3 "alpha" "across" (by decide) (by decide)

/-! ## C9: pivot integrity -/

/-- Claim C9: the comparison-matrix pivot fails with an error on any
input containing two rows with the same (author, adposition) key, and on
duplicate-free input it is lossless — every input row's
`mean_frequency` is recoverable from the corresponding cell. -/
theorem c9_pivot_duplicates_and_losslessness (rows : List SummaryRow) :
    (¬ (rows.map summaryKey).Nodup →
      ∃ msg, createComparisonMatrix rows = Except.error msg) ∧
    ((rows.map summaryKey).Nodup → ∀ r ∈ rows,
      ∃ m, createComparisonMatrix rows = Except.ok m ∧
        m.cell r.author r.adposition = some r.mean_frequency) := by
  constructor
  · intro hdup
    unfold createComparisonMatrix
    rw [if_neg hdup]
    exact ⟨_, rfl⟩
  · intro hnd r hr
    unfold createComparisonMatrix
    rw [if_pos hnd]
    refine ⟨_, rfl, ?_⟩
    show (rows.find? (fun r' => r'.author == r.author && r'.adposition == r.adposition)).map
      (·.mean_frequency) = some r.mean_frequency
    have hps : (r.author == r.author && r.adposition == r.adposition) = true := by simp
    have hsome : (rows.find? (fun r' =>
        r'.author == r.author && r'.adposition == r.adposition)).isSome :=
      List.find?_isSome.mpr ⟨r, hr, hps⟩
    obtain ⟨x, hx⟩ := Option.isSome_iff_exists.mp hsome
    have hpx := List.find?_some hx
    have hxmem := List.mem_of_find?_eq_some hx
    rw [Bool.and_eq_true, beq_iff_eq, beq_iff_eq] at hpx
    have hkey : summaryKey x = summaryKey r := by
      simp [summaryKey, hpx.1, hpx.2]
    have hxr : x = r := List.inj_on_of_nodup_map hnd hxmem hr hkey
    rw [hx, hxr]
    rfl

/-- Witness for C9: a duplicated key is rejected, and on a
duplicate-free summary the first row's mean is recovered from its cell. -/
theorem c9_pivot_duplicates_and_losslessness_witness :
    (∃ msg, createComparisonMatrix rows9dup = Except.error msg) ∧
    (∃ m, createComparisonMatrix rows9 = Except.ok m ∧
      m.cell (srow "alpha" "across" 1).author (srow "alpha" "across" 1).adposition =
        some (srow "alpha" "across" 1).mean_frequency) :=
  ⟨(c9_pivot_duplicates_and_losslessness rows9dup).1 (by decide),
   (c9_pivot_duplicates_and_losslessness rows9).2 (by decide) (srow "alpha" "across" 1)
     (List.mem_cons_self _ _)⟩

/-! ## C8: the amended baseline-comparator contract -/

theorem mkCompEntry_author (author adp : String) (hem auth : Option ℚ) :
    (mkCompEntry author adp hem auth).author = author := rfl

theorem mkCompEntry_adposition (author adp : String) (hem auth : Option ℚ) :
    (mkCompEntry author adp hem auth).adposition = adp := rfl

theorem sum_map_indicator {l : List String} {a : String} (hnd : l.Nodup) (ha : a ∈ l) :
    (l.map (fun x => if x = a then (1 : ℕ) else 0)).sum = 1 := by
  induction l with
  | nil => cases ha
  | cons x t ih =>
    rcases List.mem_cons.mp ha with h | hat
    · subst h
      have hnotin : a ∉ t := (List.nodup_cons.mp hnd).1
      have hz : ((t.map (fun y => if y = a then (1 : ℕ) else 0))).sum = 0 :=
        List.sum_eq_zero (by
          intro n hn
          obtain ⟨y, hy, rfl⟩ := List.mem_map.mp hn
          exact if_neg (fun hya : y = a => hnotin (hya ▸ hy)))
      simp [hz]
    · have hx : x ≠ a := fun h => (List.nodup_cons.mp hnd).1 (h ▸ hat)
      simp [hx, ih (List.nodup_cons.mp hnd).2 hat]

/-- Claim C8 as amended: the baseline author is the hardcoded label
"hemingway", not a parameter; for every matrix whose rows include
"hemingway", the comparator succeeds and produces exactly one entry per
(non-baseline author, adposition) pair. -/
theorem c8_baseline_entries_amended (m : CompMatrix)
    (hA : m.authors.Nodup) (hC : m.adps.Nodup) (hhem : "hemingway" ∈ m.authors)
    (a : String) (ha : a ∈ m.authors) (hne : a ≠ "hemingway")
    (adp : String) (hadp : adp ∈ m.adps) :
    ∃ l, compareToHemingway m = some l ∧
      (l.filter (fun e => e.author == a && e.adposition == adp)).length = 1 := by
  unfold compareToHemingway
  rw [if_pos (List.elem_eq_true_of_mem hhem)]
  refine ⟨_, rfl, ?_⟩
  rw [← List.countP_eq_length_filter, List.countP_flatMap]
  have hcount : ∀ au : String,
      List.countP (fun e => e.author == a && e.adposition == adp)
        (m.adps.map (fun adp' => mkCompEntry au adp' (m.cell "hemingway" adp') (m.cell au adp')))
        = if au = a then 1 else 0 := by
    intro au
    rw [List.countP_map]
    by_cases hau : au = a
    · have hfun : ((fun e => e.author == a && e.adposition == adp) ∘
          (fun adp' => mkCompEntry au adp' (m.cell "hemingway" adp') (m.cell au adp')))
          = fun adp' => adp' == adp := by
        funext adp'
        simp [Function.comp, mkCompEntry_author, mkCompEntry_adposition, hau]
      rw [hfun, if_pos hau]
      have hone := List.count_eq_one_of_mem hC hadp
      simpa [List.count] using hone
    · have hfun : ((fun e => e.author == a && e.adposition == adp) ∘
          (fun adp' => mkCompEntry au adp' (m.cell "hemingway" adp') (m.cell au adp')))
          = fun _ => false := by
        funext adp'
        simp [Function.comp, mkCompEntry_author, mkCompEntry_adposition, hau]
      rw [hfun, if_neg hau]
      simp
  have hmapeq :
      List.map ((List.countP (fun e => e.author == a && e.adposition == adp)) ∘
        (fun au => m.adps.map (fun adp' =>
          mkCompEntry au adp' (m.cell "hemingway" adp') (m.cell au adp'))))
        (m.authors.filter (fun x => x != "hemingway"))
      = List.map (fun au => if au = a then (1 : ℕ) else 0)
        (m.authors.filter (fun x => x != "hemingway")) :=
    List.map_congr_left (fun au _ => hcount au)
  rw [hmapeq]
  exact sum_map_indicator (hA.filter _) (List.mem_filter.mpr ⟨ha, bne_iff_ne.mpr hne⟩)

/-- Witness for the amended C8 on a concrete matrix containing the
"hemingway" row. -/
theorem c8_baseline_entries_amended_witness :
    ∃ l, compareToHemingway m1 = some l ∧
      (l.filter (fun e => e.author == "alpha" && e.adposition == "across")).length = 1 :=
  c8_baseline_entries_amended m1 (by decide) (by decide) (by decide)
    "alpha" (by decide) (by decide) "across" (by decide)

/-! ## C4: distinctive-feature detector characterization -/

theorem mem_cellFeatures_iff (m : CompMatrix) (th : ℚ) (a adp : String) (f : Feature) :
    f ∈ cellFeatures m th a adp ↔
      ∃ om af, othersMean m a adp = some om ∧ 0 < om ∧ m.cell a adp = some af ∧
        th ≤ af / om ∧ f = mkFeature a adp af om := by
  unfold cellFeatures
  cases hom : othersMean m a adp with
  | none => simp
  | some om =>
    by_cases h0 : 0 < om
    · cases hc : m.cell a adp with
      | none => simp [h0]
      | some af =>
        by_cases hth : th ≤ af / om
        · simp [h0, hth]
        · simp [h0, hth]
    · simp [h0]

theorem mem_identifyDistinctiveFeatures_iff (m : CompMatrix) (th : ℚ) (f : Feature) :
    f ∈ identifyDistinctiveFeatures m th ↔
      ∃ a ∈ m.authors, ∃ adp ∈ m.adps, f ∈ cellFeatures m th a adp := by
  unfold identifyDistinctiveFeatures
  simp [List.mem_flatMap]

/-- Claim C4: a feature is emitted for (author, adposition) exactly when
the leave-one-out column mean is defined and positive (in particular
nothing is emitted when it is 0) and the unrounded ratio
`author_rate / others_mean_rate` reaches the threshold; the level of an
emitted feature is "high" precisely when that ratio reaches 2.0 and
"moderate" otherwise. -/
theorem c4_distinctive_features_characterization (m : CompMatrix) (th : ℚ) :
    (∀ f, f ∈ identifyDistinctiveFeatures m th ↔
      ∃ a adp om af, a ∈ m.authors ∧ adp ∈ m.adps ∧
        othersMean m a adp = some om ∧ 0 < om ∧ m.cell a adp = some af ∧
        th ≤ af / om ∧ f = mkFeature a adp af om) ∧
    (∀ a adp, othersMean m a adp = some 0 → cellFeatures m th a adp = []) ∧
    (∀ a adp (af om : ℚ),
      ((mkFeature a adp af om).distinctive_level = "high" ↔ 2 ≤ af / om) ∧
      ((mkFeature a adp af om).distinctive_level = "moderate" ↔ ¬ 2 ≤ af / om)) := by
  refine ⟨?_, ?_, ?_⟩
  · intro f
    rw [mem_identifyDistinctiveFeatures_iff]
    constructor
    · rintro ⟨a, ha, adp, hadp, hf⟩
      obtain ⟨om, af, h1, h2, h3, h4, h5⟩ := (mem_cellFeatures_iff m th a adp f).mp hf
      exact ⟨a, adp, om, af, ha, hadp, h1, h2, h3, h4, h5⟩
    · rintro ⟨a, adp, om, af, ha, hadp, h1, h2, h3, h4, h5⟩
      exact ⟨a, ha, adp, hadp, (mem_cellFeatures_iff m th a adp f).mpr ⟨om, af, h1, h2, h3, h4, h5⟩⟩
  · intro a adp hom
    unfold cellFeatures
    rw [hom]
    simp
  · intro a adp af om
    by_cases h2 : 2 ≤ af / om
    · have hl : (mkFeature a adp af om).distinctive_level = "high" := by
        simp [mkFeature, h2]
      rw [hl]
      exact ⟨iff_of_true rfl h2, iff_of_false (by decide) (fun hn => hn h2)⟩
    · have hl : (mkFeature a adp af om).distinctive_level = "moderate" := by
        simp [mkFeature, h2]
      rw [hl]
      exact ⟨iff_of_false (by decide) h2, iff_of_true rfl h2⟩

/-- Witness for C4: on the concrete matrix `m4`, author "A" (rate 3
against the others' mean 1) is emitted as a distinctive feature. -/
theorem c4_distinctive_features_characterization_witness :
    mkFeature "A" "across" 3 1 ∈ identifyDistinctiveFeatures m4 (3/2) := by
  have hom : othersMean m4 "A" "across" = some 1 := by
    simp [othersMean, m4, pandasMean, meanQ]
  have hcell : m4.cell "A" "across" = some 3 := by
    simp [m4]
  exact ((c4_distinctive_features_characterization m4 (3/2)).1 (mkFeature "A" "across" 3 1)).mpr
    ⟨"A", "across", 1, 3, by decide, by decide, hom, by norm_num, hcell, by norm_num, rfl⟩

/-! ## C5: baseline difference and ratio -/

/-- Claim C5: whenever the baseline row is present, every non-baseline
(author, adposition) pair yields an entry whose stored difference is
exactly `author_rate - baseline_rate` (two-decimal cell values survive
the display rounding unchanged), whose computed ratio is exactly
`author_rate / baseline_rate` when the baseline rate is positive (the
stored field being its two-decimal display rounding), and whose ratio is
+infinity when the baseline rate is exactly zero — a zero baseline never
reaches the division. -/
theorem c5_baseline_difference_and_ratio (m : CompMatrix) (author adp : String) (h q : ℚ)
    (hhem : "hemingway" ∈ m.authors)
    (ha : author ∈ m.authors) (hne : author ≠ "hemingway") (hadp : adp ∈ m.adps)
    (hcellH : m.cell "hemingway" adp = some h) (hcellA : m.cell author adp = some q)
    (hch : ∃ kh : ℤ, h = (kh : ℚ) / 100) (hcq : ∃ kq : ℤ, q = (kq : ℚ) / 100) :
    ∃ l, compareToHemingway m = some l ∧
      ∃ e ∈ l, e.author = author ∧ e.adposition = adp ∧
        e.difference = PVal.num (q - h) ∧
        (0 < h → pratio (m.cell author adp) (m.cell "hemingway" adp) = PVal.num (q / h) ∧
          e.ratio = PVal.num (round2 (q / h))) ∧
        (h = 0 → e.ratio = PVal.inf) := by
  unfold compareToHemingway
  rw [if_pos (List.elem_eq_true_of_mem hhem)]
  refine ⟨_, rfl, mkCompEntry author adp (m.cell "hemingway" adp) (m.cell author adp),
    List.mem_flatMap.mpr ⟨author, List.mem_filter.mpr ⟨ha, bne_iff_ne.mpr hne⟩,
      List.mem_map_of_mem _ hadp⟩, rfl, rfl, ?_, ?_, ?_⟩
  · obtain ⟨kh, rfl⟩ := hch
    obtain ⟨kq, rfl⟩ := hcq
    have hqh : (kq : ℚ) / 100 - (kh : ℚ) / 100 = ((kq - kh : ℤ) : ℚ) / 100 := by
      push_cast
      ring
    show pvRound2 (psub (m.cell author adp) (m.cell "hemingway" adp)) = _
    rw [hcellA, hcellH]
    show PVal.num (round2 ((kq : ℚ) / 100 - (kh : ℚ) / 100)) = _
    rw [hqh, round2_centi]
  · intro h0
    constructor
    · rw [hcellA, hcellH]
      show (if 0 < h then _ else PVal.inf) = _
      rw [if_pos h0]
    · show pvRound2 (pratio (m.cell author adp) (m.cell "hemingway" adp)) = _
      rw [hcellA, hcellH]
      show pvRound2 (if 0 < h then _ else PVal.inf) = _
      rw [if_pos h0]
      rfl
  · intro hz
    subst hz
    show pvRound2 (pratio (m.cell author adp) (m.cell "hemingway" adp)) = _
    rw [hcellA, hcellH]
    simp [pratio, pvRound2]

/-- Witness for C5 on the concrete matrix `m5`: a positive baseline cell
gives the exact quotient, a zero baseline cell gives +infinity. -/
theorem c5_baseline_difference_and_ratio_witness :
    (∃ l, compareToHemingway m5 = some l ∧
      ∃ e ∈ l, e.author = "A" ∧ e.adposition = "across" ∧
        e.difference = PVal.num (2 - 1/2) ∧
        (0 < (1/2 : ℚ) → pratio (m5.cell "A" "across") (m5.cell "hemingway" "across") =
          PVal.num (2 / (1/2)) ∧ e.ratio = PVal.num (round2 (2 / (1/2)))) ∧
        ((1/2 : ℚ) = 0 → e.ratio = PVal.inf)) ∧
    (∃ l, compareToHemingway m5 = some l ∧
      ∃ e ∈ l, e.author = "A" ∧ e.adposition = "past" ∧
        e.difference = PVal.num (3 - 0) ∧
        (0 < (0 : ℚ) → pratio (m5.cell "A" "past") (m5.cell "hemingway" "past") =
          PVal.num (3 / 0) ∧ e.ratio = PVal.num (round2 (3 / 0))) ∧
        ((0 : ℚ) = 0 → e.ratio = PVal.inf)) :=
  ⟨c5_baseline_difference_and_ratio m5 "A" "across" (1/2) 2 (by decide) (by decide) (by decide)
      (by decide) (by simp [m5]) (by simp [m5]) ⟨50, by norm_num⟩ ⟨200, by norm_num⟩,
   c5_baseline_difference_and_ratio m5 "A" "past" 0 3 (by decide) (by decide) (by decide)
      (by decide) (by simp [m5]) (by simp [m5]) ⟨0, by norm_num⟩ ⟨300, by norm_num⟩⟩

/-! ## C7: where rounding sits relative to the threshold comparisons -/

theorem flatMap_congr_of_mem {α β : Type} {l : List α} {f g : α → List β}
    (h : ∀ a ∈ l, f a = g a) : l.flatMap f = l.flatMap g := by
  induction l with
  | nil => rfl
  | cons x t ih =>
    rw [List.flatMap_cons, List.flatMap_cons, h x (List.mem_cons_self x t),
      ih (fun a ha => h a (List.mem_cons_of_mem x ha))]

theorem cellFeatures_keyLevel (m : CompMatrix) (th : ℚ) (a adp : String) :
    (cellFeatures m th a adp).map featureKeyLevel =
      (cellFeaturesRaw m th a adp).map featureKeyLevel := by
  unfold cellFeatures cellFeaturesRaw
  cases hom : othersMean m a adp with
  | none => rfl
  | some om =>
    by_cases h0 : 0 < om
    · cases hc : m.cell a adp with
      | none => simp [h0]
      | some af =>
        by_cases hth : th ≤ af / om
        · simp [h0, hth, featureKeyLevel, mkFeature, mkFeatureRaw]
        · simp [h0, hth]
    · simp [h0]

/-- Claim C7 as amended: within the Distinctive Feature Detector itself,
the two-decimal rounding touches only the displayed numeric fields —
removing it changes neither which (author, adposition) pairs are
emitted nor their levels.  (The original claim fails end to end: the
detector's inputs are matrix cells that upstream stages rounded before
persisting, as the accompanying counterexample shows.) -/
theorem c7_display_rounding_amended (m : CompMatrix) (th : ℚ) :
    (identifyDistinctiveFeatures m th).map featureKeyLevel =
      (identifyDistinctiveFeaturesRaw m th).map featureKeyLevel := by
  unfold identifyDistinctiveFeatures identifyDistinctiveFeaturesRaw
  rw [List.map_flatMap, List.map_flatMap]
  refine flatMap_congr_of_mem (fun a _ => ?_)
  rw [List.map_flatMap, List.map_flatMap]
  exact flatMap_congr_of_mem (fun adp _ => cellFeatures_keyLevel m th a adp)

theorem unroundedSummaryRow_author (df : List WorkRow) (a adp : String) :
    (unroundedSummaryRow df a adp).author = a := rfl

theorem unroundedSummaryRow_adposition (df : List WorkRow) (a adp : String) :
    (unroundedSummaryRow df a adp).adposition = adp := rfl

theorem unroundedFind_eq (df : List WorkRow) {author adp : String}
    (ha : author ∈ uniqueAuthors df) (hadp : adp ∈ targetAdpositions) :
    (unroundedSummary df).find? (fun r => r.author == author && r.adposition == adp) =
      some (unroundedSummaryRow df author adp) := by
  have hmem : unroundedSummaryRow df author adp ∈ unroundedSummary df :=
    List.mem_flatMap.mpr ⟨author, ha, List.mem_map_of_mem _ hadp⟩
  have hps : ((unroundedSummaryRow df author adp).author == author &&
      (unroundedSummaryRow df author adp).adposition == adp) = true := by
    simp [unroundedSummaryRow_author, unroundedSummaryRow_adposition]
  have hsome : ((unroundedSummary df).find?
      (fun r => r.author == author && r.adposition == adp)).isSome :=
    List.find?_isSome.mpr ⟨_, hmem, hps⟩
  obtain ⟨x, hx⟩ := Option.isSome_iff_exists.mp hsome
  have hpx := List.find?_some hx
  have hxmem := List.mem_of_find?_eq_some hx
  obtain ⟨au, _, hx2⟩ := List.mem_flatMap.mp hxmem
  obtain ⟨adp', _, rfl⟩ := List.mem_map.mp hx2
  rw [unroundedSummaryRow_author, unroundedSummaryRow_adposition, Bool.and_eq_true,
    beq_iff_eq, beq_iff_eq] at hpx
  obtain ⟨rfl, rfl⟩ := hpx
  exact hx

theorem round2_rateA : round2 ((5000 : ℚ) / 10001) = 1 / 2 := by
  have hfd : Int.fdiv 500000 10001 = 49 := by decide
  unfold round2 roundHalfEven qfloor
  norm_num [hfd]

theorem round2_rateB : round2 ((1 : ℚ) / 3) = 33 / 100 := by
  have hfd : Int.fdiv 100 3 = 33 := by decide
  unfold round2 roundHalfEven qfloor
  norm_num [hfd]

theorem groupOf_df7_A : groupOf df7 "A" = [rowA7] := rfl

theorem groupOf_df7_B : groupOf df7 "B" = [rowB7] := rfl

theorem exactRate_A : exactRate rowA7 "across" = 5000 / 10001 := by
  norm_num [exactRate, rowA7]

theorem exactRate_B : exactRate rowB7 "across" = 1 / 3 := by
  norm_num [exactRate, rowB7]

theorem exactRate_zero_of_count_zero (r : WorkRow) (adp : String) (h : r.count adp = 0) :
    exactRate r adp = 0 := by
  unfold exactRate
  by_cases h0 : r.total_words = 0
  · simp [h0]
  · simp [h0, h]

theorem summary7_meanA : (mkSummaryRow std0 df7 "A" "across").mean_frequency = 1 / 2 := by
  show round2 (meanQ (ratesOf (groupOf df7 "A") "across")) = 1 / 2
  rw [groupOf_df7_A]
  have hr : ratesOf [rowA7] "across" = [1/2] := rfl
  rw [hr]
  have hm : meanQ [(1/2 : ℚ)] = 1/2 := by norm_num [meanQ]
  rw [hm]
  have h50 := round2_centi 50
  norm_num at h50
  exact h50

theorem summary7_meanB : (mkSummaryRow std0 df7 "B" "across").mean_frequency = 33 / 100 := by
  show round2 (meanQ (ratesOf (groupOf df7 "B") "across")) = 33 / 100
  rw [groupOf_df7_B]
  have hr : ratesOf [rowB7] "across" = [33/100] := rfl
  rw [hr]
  have hm : meanQ [(33/100 : ℚ)] = 33/100 := by norm_num [meanQ]
  rw [hm]
  have h33 := round2_centi 33
  norm_num at h33
  exact h33

theorem matrix7_authors : matrix7.authors = ["A", "B"] := by decide

theorem matrix7_adps : matrix7.adps = targetAdpositions := by decide

theorem matrix7_cellA : matrix7.cell "A" "across" = some (1/2) := by
  show (summaryLookup std0 df7 "A" "across").map (·.mean_frequency) = some (1/2)
  rw [summaryLookup_eq std0 df7 (by decide) (by decide)]
  simp [summary7_meanA]

theorem matrix7_cellB : matrix7.cell "B" "across" = some (33/100) := by
  show (summaryLookup std0 df7 "B" "across").map (·.mean_frequency) = some (33/100)
  rw [summaryLookup_eq std0 df7 (by decide) (by decide)]
  simp [summary7_meanB]

theorem matrix7_othersA : othersMean matrix7 "A" "across" = some (33/100) := by
  unfold othersMean
  rw [matrix7_authors]
  have hfil : List.filter (fun a => a != "A") ["A", "B"] = ["B"] := by decide
  rw [hfil]
  have hfm : List.filterMap (fun a => matrix7.cell a "across") ["B"] = [33/100] := by
    simp [List.filterMap_cons, matrix7_cellB]
  rw [hfm]
  norm_num [pandasMean, meanQ]

theorem codeFeatures_df7 :
    codeFeatures std0 df7 = identifyDistinctiveFeatures matrix7 defaultThreshold := by
  unfold codeFeatures
  have hnd : ((createFrequencySummary std0 df7).map summaryKey).Nodup := by decide
  have hok : createComparisonMatrix (createFrequencySummary std0 df7) = Except.ok matrix7 := by
    unfold createComparisonMatrix
    rw [if_pos hnd]
    rfl
  rw [hok]

theorem usummary7_meanA : (unroundedSummaryRow df7 "A" "across").mean_frequency = 5000 / 10001 := by
  show meanQ ((groupOf df7 "A").map (fun r => exactRate r "across")) = 5000 / 10001
  rw [groupOf_df7_A]
  show meanQ [exactRate rowA7 "across"] = 5000 / 10001
  rw [exactRate_A]
  norm_num [meanQ]

theorem usummary7_meanB : (unroundedSummaryRow df7 "B" "across").mean_frequency = 1 / 3 := by
  show meanQ ((groupOf df7 "B").map (fun r => exactRate r "across")) = 1 / 3
  rw [groupOf_df7_B]
  show meanQ [exactRate rowB7 "across"] = 1 / 3
  rw [exactRate_B]
  norm_num [meanQ]

theorem umatrix7_cellA : umatrix7.cell "A" "across" = some (5000/10001) := by
  show ((unroundedSummary df7).find? (fun r => r.author == "A" && r.adposition == "across")).map
    (·.mean_frequency) = some (5000/10001)
  rw [unroundedFind_eq df7 (by decide) (by decide)]
  simp [usummary7_meanA]

theorem umatrix7_cellB : umatrix7.cell "B" "across" = some (1/3) := by
  show ((unroundedSummary df7).find? (fun r => r.author == "B" && r.adposition == "across")).map
    (·.mean_frequency) = some (1/3)
  rw [unroundedFind_eq df7 (by decide) (by decide)]
  simp [usummary7_meanB]

theorem umatrix7_authors : umatrix7.authors = ["A", "B"] := by decide

theorem umatrix7_othersA : othersMean umatrix7 "A" "across" = some (1/3) := by
  unfold othersMean
  rw [umatrix7_authors]
  have hfil : List.filter (fun a => a != "A") ["A", "B"] = ["B"] := by decide
  rw [hfil]
  have hfm : List.filterMap (fun a => umatrix7.cell a "across") ["B"] = [1/3] := by
    simp [List.filterMap_cons, umatrix7_cellB]
  rw [hfm]
  norm_num [pandasMean, meanQ]

theorem unroundedFeatures_df7 :
    unroundedFeatures df7 = identifyDistinctiveFeatures umatrix7 defaultThreshold := by
  unfold unroundedFeatures
  have hnd : ((unroundedSummary df7).map summaryKey).Nodup := by decide
  have hok : createComparisonMatrix (unroundedSummary df7) = Except.ok umatrix7 := by
    unfold createComparisonMatrix
    rw [if_pos hnd]
    rfl
  rw [hok]

/-- Counterexample to claim C7: on the realizable two-row dataset `df7`
(stored rates are exactly the two-decimal roundings of the exact rates,
third conjunct), the code's pipeline — whose summary means are rounded
before the pivot — flags ("A", "across") as distinctive (exact ratio of
the rounded cells 0.50/0.33 = 1.515... >= 1.5), while the same pipeline
over unrounded values does not (exact ratio 1.49985... < 1.5): rounding
is applied before a threshold comparison and changes its outcome. -/
theorem c7_rounding_counterexample :
    ((codeFeatures std0 df7).any (fun f => f.author == "A" && f.adposition == "across")) = true ∧
    ((unroundedFeatures df7).any (fun f => f.author == "A" && f.adposition == "across")) = false ∧
    (∀ adp ∈ targetAdpositions,
      rowA7.rate adp = round2 (exactRate rowA7 adp) ∧
      rowB7.rate adp = round2 (exactRate rowB7 adp)) := by
  refine ⟨?_, ?_, ?_⟩
  · rw [codeFeatures_df7]
    apply List.any_eq_true.mpr
    refine ⟨mkFeature "A" "across" (1/2) (33/100), ?_, by decide⟩
    apply (mem_identifyDistinctiveFeatures_iff matrix7 defaultThreshold _).mpr
    refine ⟨"A", matrix7_authors ▸ (by decide), "across", matrix7_adps ▸ (by decide), ?_⟩
    apply (mem_cellFeatures_iff matrix7 defaultThreshold "A" "across" _).mpr
    exact ⟨33/100, 1/2, matrix7_othersA, by norm_num, matrix7_cellA,
      by norm_num [defaultThreshold], rfl⟩
  · rw [unroundedFeatures_df7]
    apply List.any_eq_false.mpr
    intro f hf hp
    obtain ⟨a, ha, adp, hadp, hcf⟩ :=
      (mem_identifyDistinctiveFeatures_iff umatrix7 defaultThreshold f).mp hf
    obtain ⟨om, af, hom, h0, hcell, hth, rfl⟩ :=
      (mem_cellFeatures_iff umatrix7 defaultThreshold a adp f).mp hcf
    rw [Bool.and_eq_true, beq_iff_eq, beq_iff_eq] at hp
    obtain ⟨hpa, hpd⟩ := hp
    have ha' : a = "A" := hpa
    have hd' : adp = "across" := hpd
    subst ha'
    subst hd'
    rw [umatrix7_othersA] at hom
    rw [umatrix7_cellA] at hcell
    obtain rfl : (1/3 : ℚ) = om := Option.some.inj hom
    obtain rfl : (5000/10001 : ℚ) = af := Option.some.inj hcell
    norm_num [defaultThreshold] at hth
  · intro adp hadp
    fin_cases hadp
    · constructor
      · show (1/2 : ℚ) = round2 (exactRate rowA7 "across")
        rw [exactRate_A, round2_rateA]
      · show (33/100 : ℚ) = round2 (exactRate rowB7 "across")
        rw [exactRate_B, round2_rateB]
    all_goals exact
      ⟨by rw [exactRate_zero_of_count_zero rowA7 _ (by decide), round2_zero]; rfl,
       by rw [exactRate_zero_of_count_zero rowB7 _ (by decide), round2_zero]; rfl⟩
